import Mathlib

/-!
A shallow embedding of the work-stealing task queue of
`src/src/share/vm/utilities/taskqueue.hpp` (classes `TaskQueueSuper`,
`GenericTaskQueue<E>`, `GenericTaskQueueSet<E>`).

Machine integers are modelled as `Nat` with explicit reductions where the
C++ code masks or truncates: `juint` arithmetic wraps modulo `2 ^ 32`,
`jushort` fields hold values modulo `2 ^ 16`, and the queue index mask
`n_mod_mask` keeps indices below `n = 2 ^ 14`.

Shared-memory interference is made explicit: operations take, besides the
queue state as of their first read, the value the `age` word holds at the
moment their CAS executes (other threads may have changed it in between).
In a quiescent execution that value coincides with the one first read.
-/

namespace TQ

/-- Log2 of the size of the queue (enum `SomeProtectedConstants`): `Log_n = 14`. -/
def Log_n : Nat := 14

/-- Size of the queue: `n() { return (1 << Log_n); }`, i.e. `16384`. -/
def n : Nat := 1 <<< Log_n

/-- Mask for computing `x mod n` efficiently: `n_mod_mask() { return n() - 1; }`. -/
def n_mod_mask : Nat := n - 1

/-- Maximum number of elements allowed in the queue: `max_elems() { return n() - 2; }`. -/
def max_elems : Nat := n - 2

/-- The packed `Age` word: two `jushort` fields `_top` and `_tag`.
Field values are kept below `2 ^ 16`; every assignment that could exceed
that truncates explicitly. -/
structure Age where
  top : Nat
  tag : Nat
  deriving DecidableEq, Repr

/-- Truncation to a `jushort` (16-bit) field. -/
def jushortOf (x : Nat) : Nat := x % 2 ^ 16

/-- Index increment `increment_index(ind) { return (ind + 1) & n_mod_mask(); }`
(the `juint` addition wraps modulo `2 ^ 32` before the mask). -/
def increment_index (ind : Nat) : Nat := ((ind + 1) % 2 ^ 32) &&& n_mod_mask

/-- Index decrement `decrement_index(ind) { return (ind - 1) & n_mod_mask(); }`
(the `juint` subtraction wraps modulo `2 ^ 32` before the mask). -/
def decrement_index (ind : Nat) : Nat := ((ind + (2 ^ 32 - 1)) % 2 ^ 32) &&& n_mod_mask

/-- Dirty size `dirty_size(bot, top) { return ((jint)bot - (jint)top) & n_mod_mask(); }`.
The signed difference is reduced modulo `2 ^ 32` (two's complement bit
pattern) and then masked. -/
def dirty_size (bot top : Nat) : Nat :=
  ((((bot : Int) - (top : Int)) % (2 ^ 32 : Int)).toNat) &&& n_mod_mask

/-- Size `size(bot, top)`: the dirty size, with the special value `n - 1`
interpreted as `0`. -/
def size (bot top : Nat) : Nat :=
  if dirty_size bot top = n - 1 then 0 else dirty_size bot top

/-- State of one `GenericTaskQueue<E>`: owner-written `_bottom`, the packed
`_age` word, and the element array `_elems` (modelled as a total map from
indices, since all code-site indices are reduced below `n`). -/
structure QState (E : Type) where
  bottom : Nat
  age : Age
  elems : Nat → E

/-! Basic arithmetic bridges between the masked C++ forms and plain `mod`. -/

theorem n_eq : n = 2 ^ 14 := rfl

theorem land_mask_eq_mod (x : Nat) : x &&& n_mod_mask = x % n := by
  have h : n_mod_mask = 2 ^ 14 - 1 := rfl
  rw [h, Nat.and_pow_two_sub_one_eq_mod, n_eq]

theorem increment_index_eq (ind : Nat) : increment_index ind = (ind + 1) % n := by
  rw [increment_index, land_mask_eq_mod, n_eq]
  have h : (2 : Nat) ^ 14 ∣ 2 ^ 32 := pow_dvd_pow 2 (by norm_num)
  rw [Nat.mod_mod_of_dvd _ h]

theorem decrement_index_eq (ind : Nat) :
    decrement_index ind = (ind + (n - 1)) % n := by
  rw [decrement_index, land_mask_eq_mod, n_eq]
  omega

theorem dirty_size_eq (bot top : Nat) :
    dirty_size bot top = (((bot : Int) - (top : Int)) % (n : Int)).toNat := by
  rw [dirty_size, land_mask_eq_mod, n_eq]
  omega

theorem dirty_size_lt (bot top : Nat) : dirty_size bot top < n := by
  rw [dirty_size, land_mask_eq_mod]
  exact Nat.mod_lt _ (by decide)

/-! Queue operations (`GenericTaskQueue<E>`). -/

/-- Slow path `push_slow(t, dirty_n_elems)`: if the dirty size is `n - 1` (actually
means 0) do the push at `_bottom` and advance `_bottom`; otherwise report
the queue full. Returns the `bool` result and the updated queue. -/
def push_slow {E : Type} (s : QState E) (t : E) (dirty_n_elems : Nat) :
    Bool × QState E :=
  if dirty_n_elems = n - 1 then
    (true, { s with
               elems := fun i => if i = s.bottom then t else s.elems i,
               bottom := increment_index s.bottom })
  else (false, s)

/-- Push `push(t)` (the `!SIMPLE_STACK` branch): read `_bottom` and the `top`
field of `_age`; if the dirty size is below `max_elems()`, store the
element at `_elems[_bottom]` and advance `_bottom`, else take the slow
path. -/
def push {E : Type} (s : QState E) (t : E) : Bool × QState E :=
  let localBot := s.bottom
  let top := s.age.top
  let dirty_n_elems := dirty_size localBot top
  if dirty_n_elems < max_elems then
    (true, { s with
               elems := fun i => if i = localBot then t else s.elems i,
               bottom := increment_index localBot })
  else push_slow s t dirty_n_elems

/-- Slow path `pop_local_slow(localBot, oldAge)`: build `newAge` with
`_top = localBot` (a `jushort` store truncates) and `_tag = oldAge.tag + 1`;
if `localBot == oldAge.top()` attempt the CAS of `_age` from `oldAge` to
`newAge` (here `s.age` is the value the word holds when the CAS executes);
on CAS success return true, otherwise store `newAge` non-atomically and
return false. -/
def pop_local_slow {E : Type} (s : QState E) (localBot : Nat) (oldAge : Age) :
    Bool × QState E :=
  let newAge : Age := { top := jushortOf localBot, tag := jushortOf (oldAge.tag + 1) }
  if localBot = oldAge.top then
    if s.age = oldAge then (true, { s with age := newAge })
    else (false, { s with age := newAge })
  else (false, { s with age := newAge })

/-- Local pop `pop_local(t)` (the `!SIMPLE_STACK` branch). The three reads of the
shared `age` word (`get_top()` before the emptiness test, `get_top()` after
the speculative decrement, and `get_age()` passed to the slow path) may
each observe a different value under interference; they are the parameters
`a1`, `a2`, `a3`. `s.age` is the value `_age` holds when the slow path's
CAS executes. Returns `(result, final queue state, final value of the
out-parameter t)`, where `t0` is the value `t` held at entry. -/
def pop_local {E : Type} (s : QState E) (a1 a2 a3 : Age) (t0 : E) :
    Bool × QState E × E :=
  let localBot := s.bottom
  let dirty_n_elems := dirty_size localBot a1.top
  if dirty_n_elems = 0 then (false, s, t0)
  else
    let localBot2 := decrement_index localBot
    let s1 := { s with bottom := localBot2 }
    let t := s1.elems localBot2
    let tp := a2.top
    if 0 < size localBot2 tp then (true, s1, t)
    else
      let r := pop_local_slow s1 localBot2 a3
      (r.1, r.2, t)

/-- Global pop `pop_global(t)`: read `oldAge = get_age()` and `localBot = _bottom`
(both from `s`); if `size(localBot, oldAge.top()) == 0` return false with
everything untouched; otherwise load `_elems[oldAge.top()]` into the
out-parameter, build `newAge` by incrementing the index `_top` (bumping
`_tag` when `_top` wrapped to 0) and CAS `_age` from `oldAge` to `newAge`.
`ageAtCas` is the value `_age` holds when the CAS executes; the call
returns true iff the CAS succeeded. -/
def pop_global {E : Type} (s : QState E) (ageAtCas : Age) (t0 : E) :
    Bool × QState E × E :=
  let oldAge := s.age
  let localBot := s.bottom
  let n_elems := size localBot oldAge.top
  if n_elems = 0 then (false, s, t0)
  else
    let t := s.elems oldAge.top
    let newTop := increment_index oldAge.top
    let newAge : Age :=
      { top := newTop, tag := if newTop = 0 then jushortOf (oldAge.tag + 1) else oldAge.tag }
    if ageAtCas = oldAge then (true, { s with age := newAge }, t)
    else (false, { s with age := ageAtCas }, t)

/-! Queue set (`GenericTaskQueueSet<E>`) and the steal policies. -/

/-- Modelled from the spec: `randomParkAndMiller` is declared in
`TaskQueueSetSuper` but its body lives outside this source snapshot
(`taskqueue.cpp`). Per the spec it is the Park–Miller multiplicative LCG
`seed = (seed * 16807) mod (2^31 - 1)`, kept in a caller-owned seed word;
it updates the seed and returns the new value. -/
def randomParkAndMiller (seed : Nat) : Nat := (seed * 16807) % 2147483647

/-- State of a `GenericTaskQueueSet<E>`: the count `_n` and the directory
`_queues` (modelled as a total map from indices; only indices below `nn`
are ever used). -/
structure QSet (E : Type) where
  nn : Nat
  queues : Nat → QState E

/-- Write-back of one queue of the set (the C++ code mutates
`*_queues[i]` in place). -/
def setQueue {E : Type} (qs : QSet E) (i : Nat) (q : QState E) : QSet E :=
  { qs with queues := fun j => if j = i then q else qs.queues j }

/-- Per-queue `size()`: `size(_bottom, get_top())`. -/
def queue_size {E : Type} (q : QState E) : Nat := size q.bottom q.age.top

/-- The victim-selection loop
`int k = queue_num; while (k == bad...) k = randomParkAndMiller(seed) % _n;`:
draw from the generator until the drawn index is acceptable. The C++ loop
can diverge (e.g. a zero seed); `fuel` bounds the number of draws and
`none` models a run that exceeds it. Returns the index and the seed word
after the loop. -/
def pickVictim (bad : Nat → Bool) (nn : Nat) : Nat → Nat → Option (Nat × Nat)
  | _, 0 => none
  | seed, fuel + 1 =>
    let seed2 := randomParkAndMiller seed
    let k := seed2 % nn
    if bad k then pickVictim bad nn seed2 fuel else some (k, seed2)

/-- Policy `steal_1_random(queue_num, seed, t)`. For `_n > 2` the code
computes a random `k != queue_num` — and then calls
`_queues[2]->pop_global(t)`, with the literal index 2, not `k`; the
translation keeps that faithfully. For `_n == 2` it tries the other queue;
for `_n <= 1` it fails. Returns `(result, set, seed, t)` after the call. -/
def steal_1_random {E : Type} (qs : QSet E) (queue_num seed : Nat) (t0 : E)
    (fuel : Nat) : Option (Bool × QSet E × Nat × E) :=
  if 2 < qs.nn then
    match pickVictim (fun k => k == queue_num) qs.nn seed fuel with
    | none => none
    | some (_, seed2) =>
      let r := pop_global (qs.queues 2) (qs.queues 2).age t0
      some (r.1, setQueue qs 2 r.2.1, seed2, r.2.2)
  else if qs.nn = 2 then
    let k := (queue_num + 1) % 2
    let r := pop_global (qs.queues k) (qs.queues k).age t0
    some (r.1, setQueue qs k r.2.1, seed, r.2.2)
  else
    some (false, qs, seed, t0)

/-- Policy `steal_best_of_2(queue_num, seed, t)`: for `_n > 2` draw two
distinct victims, sample both sizes and try `pop_global` on the larger
(`if (sz2 > sz1)` — a tie goes to the first victim `k1`); for `_n == 2`
try the other queue; for `_n <= 1` fail. -/
def steal_best_of_2 {E : Type} (qs : QSet E) (queue_num seed : Nat) (t0 : E)
    (fuel : Nat) : Option (Bool × QSet E × Nat × E) :=
  if 2 < qs.nn then
    match pickVictim (fun k => k == queue_num) qs.nn seed fuel with
    | none => none
    | some (k1, seed1) =>
      match pickVictim (fun k => k == queue_num || k == k1) qs.nn seed1 fuel with
      | none => none
      | some (k2, seed2) =>
        let sz1 := queue_size (qs.queues k1)
        let sz2 := queue_size (qs.queues k2)
        if sz1 < sz2 then
          let r := pop_global (qs.queues k2) (qs.queues k2).age t0
          some (r.1, setQueue qs k2 r.2.1, seed2, r.2.2)
        else
          let r := pop_global (qs.queues k1) (qs.queues k1).age t0
          some (r.1, setQueue qs k1 r.2.1, seed2, r.2.2)
  else if qs.nn = 2 then
    let k := (queue_num + 1) % 2
    let r := pop_global (qs.queues k) (qs.queues k).age t0
    some (r.1, setQueue qs k r.2.1, seed, r.2.2)
  else
    some (false, qs, seed, t0)

/-- Policy `steal_best_of_all(queue_num, seed, t)`: for `_n > 2` scan every
queue except `queue_num`, tracking the best (strictly larger) size seen;
then `return best_sz > 0 && _queues[best_k]->pop_global(t)` (short-circuit:
no `pop_global` when every size was 0). The C++ `best_k` is uninitialized
until the first strictly positive size assigns it; it is read only under
`best_sz > 0`, so initializing it to 0 here is observationally equal. -/
def steal_best_of_all {E : Type} (qs : QSet E) (queue_num seed : Nat) (t0 : E) :
    Bool × QSet E × Nat × E :=
  if 2 < qs.nn then
    let scan := (List.range qs.nn).foldl
      (fun (best : Nat × Nat) k =>
        if k = queue_num then best
        else if best.2 < queue_size (qs.queues k) then (k, queue_size (qs.queues k))
        else best)
      (0, 0)
    if 0 < scan.2 then
      let r := pop_global (qs.queues scan.1) (qs.queues scan.1).age t0
      (r.1, setQueue qs scan.1 r.2.1, seed, r.2.2)
    else (false, qs, seed, t0)
  else if qs.nn = 2 then
    let k := (queue_num + 1) % 2
    let r := pop_global (qs.queues k) (qs.queues k).age t0
    (r.1, setQueue qs k r.2.1, seed, r.2.2)
  else (false, qs, seed, t0)

/-- The body of `steal`'s loop
`for (int i = 0; i < 2 * _n; i++) if (steal_best_of_2(...)) return true;`,
recursing on the number of remaining iterations and threading the
`(set, seed, t)` state through the attempts. -/
def stealLoop {E : Type} (queue_num fuel : Nat) :
    QSet E × Nat × E → Nat → Option (Bool × QSet E × Nat × E)
  | st, 0 => some (false, st.1, st.2.1, st.2.2)
  | st, count + 1 =>
    match steal_best_of_2 st.1 queue_num st.2.1 st.2.2 fuel with
    | none => none
    | some (true, a, b, c) => some (true, a, b, c)
    | some (false, a, b, c) => stealLoop queue_num fuel (a, b, c) count

/-- Steal `steal(queue_num, seed, t)`: up to `2 * _n` best-of-two attempts,
returning true at the first success and false after all fail. -/
def steal {E : Type} (qs : QSet E) (queue_num seed : Nat) (t0 : E)
    (fuel : Nat) : Option (Bool × QSet E × Nat × E) :=
  stealLoop queue_num fuel (qs, seed, t0) (2 * qs.nn)

/-- Specification helper: the `(set, seed, t)` state after `j` consecutive
failed best-of-two attempts (`none` when some attempt among the first `j`
did not fail). -/
def afterFails {E : Type} (queue_num fuel : Nat) :
    QSet E × Nat × E → Nat → Option (QSet E × Nat × E)
  | st, 0 => some st
  | st, j + 1 =>
    match steal_best_of_2 st.1 queue_num st.2.1 st.2.2 fuel with
    | none => none
    | some r => if r.1 then none else afterFails queue_num fuel r.2 j

/-! Concrete states used to instantiate the theorems below. -/

/-- A queue observed with `bottom = 0`, `top = 1`: dirty size `n - 1`
(transiently empty). -/
def wPushQ : QState Nat := ⟨0, ⟨1, 0⟩, fun _ => 0⟩

/-- A queue holding one element: `bottom = 1`, `top = 0`, `buf[i] = 10 + i`. -/
def wPopQ : QState Nat := ⟨1, ⟨0, 0⟩, fun i => 10 + i⟩

/-- An empty queue in canonical form. -/
def wEmptyQ : QState Nat := ⟨0, ⟨0, 0⟩, fun _ => 0⟩

/-- A queue as seen by `pop_local_slow`: `bottom = 5`, `age = (5, 7)`. -/
def wSlowQ : QState Nat := ⟨5, ⟨5, 7⟩, fun _ => 0⟩

/-- A set of one queue. -/
def wSet1 : QSet Nat := ⟨1, fun _ => ⟨1, ⟨0, 0⟩, fun _ => 30⟩⟩

/-- A set of two queues; queue `j` holds the single element `20 + j`. -/
def wSet2 : QSet Nat := ⟨2, fun j => ⟨1, ⟨0, 0⟩, fun _ => 20 + j⟩⟩

/-- A set of four queues; queue `j` holds the single element `100 + j`. -/
def wSet4 : QSet Nat := ⟨4, fun j => ⟨1, ⟨0, 0⟩, fun _ => 100 + j⟩⟩

/-- A set of four queues where only queue 1 is nonempty (element 41). -/
def wSet4b : QSet Nat :=
  ⟨4, fun j => if j = 1 then ⟨1, ⟨0, 0⟩, fun _ => 41⟩ else ⟨0, ⟨0, 0⟩, fun _ => 40⟩⟩

/-! Further helper lemmas. -/

theorem n_val : n = 16384 := rfl

theorem max_elems_val : max_elems = 16382 := rfl

theorem dirty_size_self (x : Nat) : dirty_size x x = 0 := by
  rw [dirty_size_eq]
  simp

theorem pickVictim_not_bad (bad : Nat → Bool) (nn : Nat) :
    ∀ (fuel seed k s2 : Nat), pickVictim bad nn seed fuel = some (k, s2) →
      bad k = false := by
  intro fuel
  induction fuel with
  | zero => intro seed k s2 h; simp [pickVictim] at h
  | succ f ih =>
    intro seed k s2 h
    rw [pickVictim] at h
    by_cases hb : bad (randomParkAndMiller seed % nn)
    · rw [if_pos hb] at h
      exact ih _ _ _ h
    · rw [if_neg hb] at h
      simp only [Option.some.injEq, Prod.mk.injEq] at h
      obtain ⟨hk, _⟩ := h
      subst hk
      simpa using hb

/-! Claim theorems. -/

/-- C4: for every pair of indices `(bottom, top)`, `size` returns
`(bottom - top) mod n` except that the value `n - 1` is mapped to `0`;
consequently `size` is always in `[0, n - 2]` and the dirty size is always
in `[0, n - 1]`. -/
theorem size_spec (bot top : Nat) :
    size bot top =
      (if (((bot : Int) - (top : Int)) % (n : Int)).toNat = n - 1 then 0
       else (((bot : Int) - (top : Int)) % (n : Int)).toNat) ∧
    size bot top ≤ n - 2 ∧ dirty_size bot top ≤ n - 1 := by
  have hlt := dirty_size_lt bot top
  have hn := n_val
  refine ⟨by rw [size, dirty_size_eq], ?_, by omega⟩
  rw [size]
  split
  · omega
  · rename_i h
    omega

/-- C2: when the dirty size equals `n - 1` (transiently empty), `push`
stores the element at `buf[bottom]`, advances `bottom` and returns true;
and `push` returns false exactly when the dirty size equals `n - 2`
(hence only when the dirty size lies in `{n - 2, n - 1}`). -/
theorem push_spec {E : Type} (s : QState E) (t : E) :
    (dirty_size s.bottom s.age.top = n - 1 →
      push s t = (true, { s with
                            elems := fun i => if i = s.bottom then t else s.elems i,
                            bottom := (s.bottom + 1) % n })) ∧
    ((push s t).1 = false ↔ dirty_size s.bottom s.age.top = n - 2) := by
  have hn := n_val
  have hm := max_elems_val
  have hlt := dirty_size_lt s.bottom s.age.top
  constructor
  · intro h
    have hnotlt : ¬ dirty_size s.bottom s.age.top < max_elems := by omega
    simp only [push, push_slow]
    rw [if_neg hnotlt, if_pos h, increment_index_eq]
  · by_cases h1 : dirty_size s.bottom s.age.top < max_elems
    · simp only [push, push_slow]
      rw [if_pos h1]
      exact iff_of_false (by simp) (by omega)
    · by_cases h2 : dirty_size s.bottom s.age.top = n - 1
      · simp only [push, push_slow]
        rw [if_neg h1, if_pos h2]
        exact iff_of_false (by simp) (by omega)
      · simp only [push, push_slow]
        rw [if_neg h1, if_neg h2]
        exact iff_of_true rfl (by omega)

/-- C1: `pop_global` computes `n_elems = size(bottom, oldAge.top)` from its
reads of the age word and `bottom` and returns false leaving everything
unchanged when it is 0; otherwise it loads `buf[oldAge.top]` into the
out-parameter before the CAS, builds `newAge` with
`top = (oldAge.top + 1) mod n` and the tag bumped exactly when the new top
wrapped to 0, and returns true iff the single CAS from `oldAge` succeeded,
in which case `age` becomes `newAge`. -/
theorem pop_global_spec {E : Type} (s : QState E) (ageAtCas : Age) (t0 : E) :
    (size s.bottom s.age.top = 0 → pop_global s ageAtCas t0 = (false, s, t0)) ∧
    (size s.bottom s.age.top ≠ 0 →
      (pop_global s ageAtCas t0).2.2 = s.elems s.age.top ∧
      ((pop_global s ageAtCas t0).1 = true ↔ ageAtCas = s.age) ∧
      ((pop_global s ageAtCas t0).1 = true →
        (pop_global s ageAtCas t0).2.1 =
          { s with age := { top := (s.age.top + 1) % n,
                            tag := if (s.age.top + 1) % n = 0
                                   then (s.age.tag + 1) % 2 ^ 16
                                   else s.age.tag } })) := by
  constructor
  · intro h
    simp only [pop_global]
    rw [if_pos h]
  · intro h
    by_cases hc : ageAtCas = s.age
    · simp only [pop_global]
      rw [if_neg h, if_pos hc]
      refine ⟨rfl, iff_of_true rfl hc, fun _ => ?_⟩
      simp only [increment_index_eq, jushortOf]
    · simp only [pop_global]
      rw [if_neg h, if_neg hc]
      exact ⟨rfl, iff_of_false (by simp) hc, fun habs => absurd habs (by simp)⟩

/-- C10: `pop_global` writes `buf[oldAge.top]` into the out-parameter
before its CAS: with a nonzero observed size the out-parameter ends up
holding `buf[oldAge.top]` even when the call returns false because the CAS
failed; only the size-0 false return leaves the out-parameter (and the
queue) unchanged. -/
theorem pop_global_frame {E : Type} (s : QState E) (ageAtCas : Age) (t0 : E) :
    (size s.bottom s.age.top = 0 →
      (pop_global s ageAtCas t0).1 = false ∧
      (pop_global s ageAtCas t0).2.1 = s ∧
      (pop_global s ageAtCas t0).2.2 = t0) ∧
    (size s.bottom s.age.top ≠ 0 →
      (pop_global s ageAtCas t0).2.2 = s.elems s.age.top) ∧
    (size s.bottom s.age.top ≠ 0 → ageAtCas ≠ s.age →
      (pop_global s ageAtCas t0).1 = false ∧
      (pop_global s ageAtCas t0).2.2 = s.elems s.age.top) := by
  refine ⟨?_, ?_, ?_⟩
  · intro h
    simp only [pop_global]
    rw [if_pos h]
    exact ⟨rfl, rfl, rfl⟩
  · intro h
    by_cases hc : ageAtCas = s.age
    · simp only [pop_global]; rw [if_neg h, if_pos hc]
    · simp only [pop_global]; rw [if_neg h, if_neg hc]
  · intro h hc
    simp only [pop_global]
    rw [if_neg h, if_neg hc]
    exact ⟨rfl, rfl⟩

/-- C9: a `pop_local` call whose first read yields a dirty size of 0
returns false without modifying `bottom`, the age word, the element buffer
or the out-parameter. -/
theorem pop_local_empty {E : Type} (s : QState E) (a1 a2 a3 : Age) (t0 : E)
    (h : dirty_size s.bottom a1.top = 0) :
    pop_local s a1 a2 a3 t0 = (false, s, t0) := by
  simp only [pop_local]
  rw [if_pos h]

/-- C3: `pop_local_slow(localBot, oldAge)` always installs the age
`(top = localBot, tag = oldAge.tag + 1)` (the CAS when it runs, the
non-atomic store otherwise), returns true exactly when `oldAge.top ==
localBot` held and the CAS succeeded, touches neither `bottom` nor the
buffer, and — since it is called with `bottom == localBot` — leaves the
queue canonically empty: size 0 and a dirty size different from `n - 1`. -/
theorem pop_local_slow_spec {E : Type} (s : QState E) (localBot : Nat)
    (oldAge : Age) (hb : localBot < n) :
    (pop_local_slow s localBot oldAge).2.age =
      { top := localBot, tag := (oldAge.tag + 1) % 2 ^ 16 } ∧
    ((pop_local_slow s localBot oldAge).1 = true ↔
      (localBot = oldAge.top ∧ s.age = oldAge)) ∧
    (pop_local_slow s localBot oldAge).2.bottom = s.bottom ∧
    (pop_local_slow s localBot oldAge).2.elems = s.elems ∧
    (s.bottom = localBot →
      size (pop_local_slow s localBot oldAge).2.bottom
           (pop_local_slow s localBot oldAge).2.age.top = 0 ∧
      dirty_size (pop_local_slow s localBot oldAge).2.bottom
                 (pop_local_slow s localBot oldAge).2.age.top ≠ n - 1) := by
  have hn := n_val
  have hb16 : jushortOf localBot = localBot := by
    rw [jushortOf]
    exact Nat.mod_eq_of_lt (by omega)
  have hcanon : ∀ hbeq : s.bottom = localBot,
      size s.bottom localBot = 0 ∧ dirty_size s.bottom localBot ≠ n - 1 := by
    intro hbeq
    subst hbeq
    rw [size, dirty_size_self]
    constructor
    · rw [if_neg (by omega)]
    · omega
  by_cases h1 : localBot = oldAge.top
  · by_cases h2 : s.age = oldAge
    · simp only [pop_local_slow]
      rw [if_pos h1, if_pos h2]
      refine ⟨by rw [hb16]; rfl, iff_of_true rfl ⟨h1, h2⟩, rfl, rfl, ?_⟩
      intro hbeq
      simpa [hb16] using hcanon hbeq
    · simp only [pop_local_slow]
      rw [if_pos h1, if_neg h2]
      refine ⟨by rw [hb16]; rfl, iff_of_false (by simp) (by tauto), rfl, rfl, ?_⟩
      intro hbeq
      simpa [hb16] using hcanon hbeq
  · simp only [pop_local_slow]
    rw [if_neg h1]
    refine ⟨by rw [hb16]; rfl, iff_of_false (by simp) (by tauto), rfl, rfl, ?_⟩
    intro hbeq
    simpa [hb16] using hcanon hbeq

/-- C7: with more than two queues, `steal_best_of_2` draws two victims,
both different from the caller's index and from each other, samples both
sizes, and attempts `pop_global` on the victim with the larger sampled
size, a tie going to the first victim drawn. -/
theorem steal_best_of_2_spec {E : Type} (qs : QSet E) (queue_num seed : Nat)
    (t0 : E) (fuel k1 seed1 k2 seed2 : Nat)
    (hn : 2 < qs.nn)
    (h1 : pickVictim (fun k => k == queue_num) qs.nn seed fuel = some (k1, seed1))
    (h2 : pickVictim (fun k => k == queue_num || k == k1) qs.nn seed1 fuel =
      some (k2, seed2)) :
    k1 ≠ queue_num ∧ k2 ≠ queue_num ∧ k2 ≠ k1 ∧
    steal_best_of_2 qs queue_num seed t0 fuel =
      (let victim := if queue_size (qs.queues k1) < queue_size (qs.queues k2)
                     then k2 else k1
       let r := pop_global (qs.queues victim) (qs.queues victim).age t0
       some (r.1, setQueue qs victim r.2.1, seed2, r.2.2)) := by
  have hb1 := pickVictim_not_bad _ _ _ _ _ _ h1
  have hb2 := pickVictim_not_bad _ _ _ _ _ _ h2
  have hk1 : k1 ≠ queue_num := by simpa using hb1
  have hk2 : ¬ (k2 = queue_num ∨ k2 = k1) := by
    intro hor
    rcases hor with he | he <;> · subst he; simp at hb2
  refine ⟨hk1, fun he => hk2 (Or.inl he), fun he => hk2 (Or.inr he), ?_⟩
  by_cases hsz : queue_size (qs.queues k1) < queue_size (qs.queues k2)
  · simp only [steal_best_of_2, if_pos hn, h1, h2, hsz, if_true]
  · simp only [steal_best_of_2, if_pos hn, h1, h2, hsz, if_false]

/-- C8: with exactly two queues every steal policy tries `pop_global` on
the single other queue, index `(queue_num + 1) mod 2`; with exactly one
queue every policy returns false leaving the set, the seed and the
out-parameter untouched. -/
theorem steal_degenerate_spec {E : Type} (qs : QSet E) (queue_num seed : Nat)
    (t0 : E) (fuel : Nat) :
    (qs.nn = 2 →
      steal_1_random qs queue_num seed t0 fuel =
        (let k := (queue_num + 1) % 2
         let r := pop_global (qs.queues k) (qs.queues k).age t0
         some (r.1, setQueue qs k r.2.1, seed, r.2.2)) ∧
      steal_best_of_2 qs queue_num seed t0 fuel =
        (let k := (queue_num + 1) % 2
         let r := pop_global (qs.queues k) (qs.queues k).age t0
         some (r.1, setQueue qs k r.2.1, seed, r.2.2)) ∧
      steal_best_of_all qs queue_num seed t0 =
        (let k := (queue_num + 1) % 2
         let r := pop_global (qs.queues k) (qs.queues k).age t0
         (r.1, setQueue qs k r.2.1, seed, r.2.2))) ∧
    (qs.nn = 1 →
      steal_1_random qs queue_num seed t0 fuel = some (false, qs, seed, t0) ∧
      steal_best_of_2 qs queue_num seed t0 fuel = some (false, qs, seed, t0) ∧
      steal_best_of_all qs queue_num seed t0 = (false, qs, seed, t0)) := by
  constructor
  · intro h
    have hgt : ¬ 2 < qs.nn := by omega
    refine ⟨?_, ?_, ?_⟩
    · simp only [steal_1_random]
      rw [if_neg hgt, if_pos h]
    · simp only [steal_best_of_2]
      rw [if_neg hgt, if_pos h]
    · simp only [steal_best_of_all]
      rw [if_neg hgt, if_pos h]
  · intro h
    have hgt : ¬ 2 < qs.nn := by omega
    have h2 : ¬ qs.nn = 2 := by omega
    refine ⟨?_, ?_, ?_⟩
    · simp only [steal_1_random]
      rw [if_neg hgt, if_neg h2]
    · simp only [steal_best_of_2]
      rw [if_neg hgt, if_neg h2]
    · simp only [steal_best_of_all]
      rw [if_neg hgt, if_neg h2]

/-- Characterization of the bounded loop of `steal`: a true result is the
first success among the iterated best-of-two attempts. -/
theorem stealLoop_true_iff {E : Type} (queue_num fuel : Nat) :
    ∀ (count : Nat) (st : QSet E × Nat × E) (rq : QSet E) (rs : Nat) (rt : E),
      (stealLoop queue_num fuel st count = some (true, rq, rs, rt) ↔
        ∃ j, j < count ∧ ∃ st2, afterFails queue_num fuel st j = some st2 ∧
          steal_best_of_2 st2.1 queue_num st2.2.1 st2.2.2 fuel =
            some (true, rq, rs, rt)) := by
  intro count
  induction count with
  | zero =>
    intro st rq rs rt
    simp [stealLoop]
  | succ cnt ih =>
    intro st rq rs rt
    cases hat : steal_best_of_2 st.1 queue_num st.2.1 st.2.2 fuel with
    | none =>
      constructor
      · intro h
        simp only [stealLoop, hat] at h
        exact Option.noConfusion h
      · rintro ⟨j, hj, st2, haf, hsucc⟩
        cases j with
        | zero =>
          simp only [afterFails, Option.some.injEq] at haf
          subst haf
          rw [hat] at hsucc
          cases hsucc
        | succ j2 =>
          simp only [afterFails, hat] at haf
          exact Option.noConfusion haf
    | some r =>
      obtain ⟨rb, ra, rs2, rt2⟩ := r
      cases rb with
      | true =>
        constructor
        · intro h
          simp only [stealLoop, hat, if_true] at h
          simp only [Option.some.injEq, Prod.mk.injEq, true_and] at h
          obtain ⟨ha, hb, hc⟩ := h
          subst ha; subst hb; subst hc
          exact ⟨0, by omega, st, by simp [afterFails], hat⟩
        · rintro ⟨j, hj, st2, haf, hsucc⟩
          cases j with
          | zero =>
            simp only [afterFails, Option.some.injEq] at haf
            subst haf
            rw [hat] at hsucc
            simp only [Option.some.injEq, Prod.mk.injEq, true_and] at hsucc
            obtain ⟨ha, hb, hc⟩ := hsucc
            subst ha; subst hb; subst hc
            simp [stealLoop, hat]
          | succ j2 =>
            simp only [afterFails, hat, if_true] at haf
            exact Option.noConfusion haf
      | false =>
        constructor
        · intro h
          simp only [stealLoop, hat, if_false] at h
          obtain ⟨j, hj, st2, haf, hsucc⟩ := (ih (ra, rs2, rt2) rq rs rt).mp h
          refine ⟨j + 1, by omega, st2, ?_, hsucc⟩
          simp only [afterFails, hat, if_false]
          exact haf
        · rintro ⟨j, hj, st2, haf, hsucc⟩
          cases j with
          | zero =>
            simp only [afterFails, Option.some.injEq] at haf
            subst haf
            rw [hat] at hsucc
            simp at hsucc
          | succ j2 =>
            simp only [afterFails, hat, if_false] at haf
            have := (ih (ra, rs2, rt2) rq rs rt).mpr ⟨j2, by omega, st2, haf, hsucc⟩
            simp only [stealLoop, hat, if_false]
            exact this

/-- Characterization of the bounded loop of `steal`: a false result means
every attempt the loop made failed, and the thread of state is the one
after those failures. -/
theorem stealLoop_false_iff {E : Type} (queue_num fuel : Nat) :
    ∀ (count : Nat) (st : QSet E × Nat × E) (rq : QSet E) (rs : Nat) (rt : E),
      (stealLoop queue_num fuel st count = some (false, rq, rs, rt) ↔
        afterFails queue_num fuel st count = some (rq, rs, rt)) := by
  intro count
  induction count with
  | zero =>
    intro st rq rs rt
    simp [stealLoop, afterFails, Prod.ext_iff]
  | succ cnt ih =>
    intro st rq rs rt
    cases hat : steal_best_of_2 st.1 queue_num st.2.1 st.2.2 fuel with
    | none =>
      simp [stealLoop, afterFails, hat]
    | some r =>
      obtain ⟨rb, ra, rs2, rt2⟩ := r
      cases rb with
      | true =>
        simp [stealLoop, afterFails, hat]
      | false =>
        simp only [stealLoop, afterFails, hat, if_false]
        exact ih (ra, rs2, rt2) rq rs rt

/-- C6: `steal` makes at most `2 * _n` best-of-two attempts: it returns
true exactly when some attempt `j < 2 * _n` succeeds after all earlier
attempts failed (and its result is that attempt's), and it returns false
exactly when all `2 * _n` attempts failed. -/
theorem steal_spec {E : Type} (qs : QSet E) (queue_num seed : Nat) (t0 : E)
    (fuel : Nat) :
    (∀ (rq : QSet E) (rs : Nat) (rt : E),
      steal qs queue_num seed t0 fuel = some (true, rq, rs, rt) ↔
        ∃ j, j < 2 * qs.nn ∧ ∃ st2,
          afterFails queue_num fuel (qs, seed, t0) j = some st2 ∧
          steal_best_of_2 st2.1 queue_num st2.2.1 st2.2.2 fuel =
            some (true, rq, rs, rt)) ∧
    (∀ (rq : QSet E) (rs : Nat) (rt : E),
      steal qs queue_num seed t0 fuel = some (false, rq, rs, rt) ↔
        afterFails queue_num fuel (qs, seed, t0) (2 * qs.nn) =
          some (rq, rs, rt)) := by
  constructor
  · intro rq rs rt
    exact stealLoop_true_iff queue_num fuel (2 * qs.nn) (qs, seed, t0) rq rs rt
  · intro rq rs rt
    exact stealLoop_false_iff queue_num fuel (2 * qs.nn) (qs, seed, t0) rq rs rt

/-- C5 (code bug): in `steal_1_random` with four queues and caller index 0,
seed 1 draws the victim `k = 3`, yet the element actually stolen is 102 —
the one held by queue 2, because the code calls `_queues[2]->pop_global(t)`
with the literal index 2 instead of `k`. Queue 3 holds 103. -/
theorem steal_1_random_bug :
    pickVictim (fun k => k == 0) 4 1 5 = some (3, 16807) ∧
    Option.map (fun r => (r.1, r.2.2.2)) (steal_1_random wSet4 0 1 (0 : Nat) 5) =
      some (true, 102) ∧
    (wSet4.queues 3).elems (wSet4.queues 3).age.top = 103 := by
  refine ⟨by decide, by decide, by decide⟩

/-! Witnesses: each applies its theorem at a concrete input. -/

theorem push_spec_witness :
    (push wPushQ 5).1 = true ∧ (push wPushQ 5).2.bottom = 1 := by
  have h := (push_spec wPushQ 5).1 (by decide)
  exact ⟨by rw [h], by rw [h]; rfl⟩

theorem pop_global_spec_witness :
    (pop_global wPopQ wPopQ.age 0).1 = true ∧
    (pop_global wPopQ wPopQ.age 0).2.2 = 10 := by
  have h := (pop_global_spec wPopQ wPopQ.age 0).2 (by decide)
  exact ⟨h.2.1.mpr rfl, h.1.trans rfl⟩

theorem pop_global_frame_witness :
    (pop_global wPopQ ⟨0, 1⟩ 0).1 = false ∧
    (pop_global wPopQ ⟨0, 1⟩ 0).2.2 = 10 := by
  have h := (pop_global_frame wPopQ ⟨0, 1⟩ 0).2.2 (by decide) (by decide)
  exact ⟨h.1, h.2.trans rfl⟩

theorem pop_local_empty_witness :
    pop_local wEmptyQ ⟨0, 0⟩ ⟨0, 0⟩ ⟨0, 0⟩ 0 = (false, wEmptyQ, 0) :=
  pop_local_empty wEmptyQ ⟨0, 0⟩ ⟨0, 0⟩ ⟨0, 0⟩ 0 (by decide)

theorem pop_local_slow_spec_witness :
    (pop_local_slow wSlowQ 5 ⟨5, 7⟩).1 = true ∧
    (pop_local_slow wSlowQ 5 ⟨5, 7⟩).2.age = ⟨5, 8⟩ ∧
    size (pop_local_slow wSlowQ 5 ⟨5, 7⟩).2.bottom
         (pop_local_slow wSlowQ 5 ⟨5, 7⟩).2.age.top = 0 := by
  have h := pop_local_slow_spec wSlowQ 5 ⟨5, 7⟩ (by decide)
  exact ⟨h.2.1.mpr ⟨rfl, rfl⟩, h.1.trans (by decide), (h.2.2.2.2 rfl).1⟩

theorem steal_best_of_2_spec_witness :
    (3 ≠ 0 ∧ 1 ≠ 0 ∧ 1 ≠ 3) ∧
    steal_best_of_2 wSet4b 0 1 (0 : Nat) 5 =
      (let victim := if queue_size (wSet4b.queues 3) < queue_size (wSet4b.queues 1)
                     then 1 else 3
       let r := pop_global (wSet4b.queues victim) (wSet4b.queues victim).age (0 : Nat)
       some (r.1, setQueue wSet4b victim r.2.1, 282475249, r.2.2)) := by
  have h := steal_best_of_2_spec wSet4b 0 1 (0 : Nat) 5 3 16807 1 282475249
    (by decide) (by decide) (by decide)
  exact ⟨⟨h.1, h.2.1, h.2.2.1⟩, h.2.2.2⟩

theorem steal_degenerate_spec_witness :
    steal_1_random wSet2 0 9 (0 : Nat) 3 =
      (let k := (0 + 1) % 2
       let r := pop_global (wSet2.queues k) (wSet2.queues k).age (0 : Nat)
       some (r.1, setQueue wSet2 k r.2.1, 9, r.2.2)) ∧
    steal_best_of_all wSet1 0 9 (0 : Nat) = (false, wSet1, 9, 0) :=
  ⟨((steal_degenerate_spec wSet2 0 9 (0 : Nat) 3).1 rfl).1,
   ((steal_degenerate_spec wSet1 0 9 (0 : Nat) 3).2 rfl).2.2⟩

theorem steal_spec_witness :
    steal wSet1 0 9 (0 : Nat) 3 = some (false, wSet1, 9, 0) :=
  ((steal_spec wSet1 0 9 (0 : Nat) 3).2 wSet1 9 0).mpr (by rfl)

end TQ
